import Mathlib

/-!
# Verification of the hiera lookup engine (session package)

Shallow embedding of the invocation/lookup engine of the hiera repository:

* `src/session/session.go` — the `session` type and the `ivContext`
  invocation context (`Config`, `WithKey`, `DoRedacted`, `Lookup`,
  `MergeLocations`, `invokeWithLocation`, `SetMergeStrategy`,
  `extractConversion`, `LookupAndConvertData`, the `With*` explainer
  wrappers and the `Report*` leaf events, `ForData`);
* `src/internal/serverctx.go` — the provider-facing `serverCtx`
  (`Cache`, `CacheAll`, `CachedValue`).

Values (`dgo.Value` / `px.Value`) are modelled by the inductive `Value`;
the Go `nil` interface value (undefined) is modelled by `Option Value`
with `none` for `nil`.  The explicit `px.Undef` sentinel returned by
`serverCtx.Cache` is the constructor `Value.vUndef`.  Go panics that the
engine raises or propagates are modelled by an `Except` error channel
carrying the mutated state, mirroring the fact that deferred clean-up
runs on the shared `ivContext` pointer before a panic propagates.

External collaborators that live outside the verified sources
(the top-level provider, `Interpolate`, `Key.Dig`, the dialect type
parser, `vf.New`, the `merge` package) are opaque parameters of the
embedding, exactly as the spec's §6 treats them.
-/

namespace Hiera

/-- Model of `dgo.Value` / `px.Value`: opaque structured data with
structural equality.  `vUndef` is the explicit `px.Undef` sentinel
(distinct from the Go `nil` interface, which is `Option.none` at use
sites).  Maps are association lists keyed by strings. -/
inductive Value where
  | vStr (s : String)
  | vInt (n : Int)
  | vBool (b : Bool)
  | vArr (elems : List Value)
  | vMap (entries : List (String × Value))
  | vUndef
deriving Repr, BEq

/-- Association-list map used to model `dgo.Map` with string keys. -/
abbrev VMap := List (String × Value)

/-- `dgo.Map.Get`: the value for a key, or `none` (Go `nil`) when absent. -/
def mapGet (m : VMap) (k : String) : Option Value :=
  match m with
  | [] => none
  | (k₁, v) :: rest => if k₁ = k then some v else mapGet rest k

/-- `dgo.Map.Without`: the map with every entry for a key removed. -/
def mapWithout (m : VMap) (k : String) : VMap :=
  match m with
  | [] => []
  | (k₁, v) :: rest => if k₁ = k then mapWithout rest k else (k₁, v) :: mapWithout rest k

/-- A hierarchy location (`hieraapi.Location`).  `present` is the result
of its `Exists()` method (the backing resource is resolvable). -/
structure Location where
  name : String
  present : Bool
deriving Repr, DecidableEq

/-- A parsed lookup key (`hieraapi.Key`): root name, trailing path
segments, and the original source string used for recursion detection. -/
structure Key where
  root : String
  segments : List String
  source : String
deriving Repr, DecidableEq

/-- Explain-sink configuration of an attached explainer: the results of
its `OnlyOptions()` and `Options()` predicates. -/
structure ExplainerCfg where
  onlyOptions : Bool
  options : Bool
deriving Repr, DecidableEq

/-- The invocation mode (`invocationMode` in session.go). -/
inductive Mode where
  | topLevel
  | lookupOptions
  | data
deriving Repr, DecidableEq

/-- The dialect's parsed type universe, as far as the engine inspects it:
the engine only ever compares a parsed type against the `Sensitive`
marker type (`typ.Sensitive`); every other type is opaque. -/
inductive DType where
  | sensitive
  | named (s : String)
deriving Repr, DecidableEq

/-- Modelled from the spec: `merge.GetStrategy` (package `merge`, not
under the verified sources) returns the strategy identified by the given
name together with its options map ("A Strategy is identified by name
... plus an options map", spec §4.2).  The engine never inspects the
strategy beyond handing it these two datums, so the model keeps exactly
them. -/
structure MergeStrategyR where
  name : String
  opts : Option VMap
deriving Repr

/-- `merge.GetStrategy(mergeName, mergeOpts)`. -/
def GetStrategy (n : String) (o : Option VMap) : MergeStrategyR := ⟨n, o⟩

/-- The mutable per-invocation state of an `ivContext`: recursion stack,
raw lookup options, active strategy, mode, redaction flag and the
attached explainer (`none` models a `nil` explainer). -/
structure IvCtx where
  nameStack : List String
  luOpts : Option VMap
  strategy : Option MergeStrategyR
  mode : Mode
  redacted : Bool
  explainer : Option ExplainerCfg
deriving Repr

/-- Errors propagated as Go panics through the engine. -/
inductive Err where
  | cyclicLookup (chain : List String)
  | notFound
  | typeMismatch (msg : String)
  | providerFailure (msg : String)
deriving Repr, DecidableEq

/-- Outcome of a state-mutating engine operation: either a final state
with a produced value, or a panic carrying the state as the deferred
clean-up left it (the `ivContext` is a shared pointer, so mutations made
before and during unwinding survive the panic). -/
abbrev IvResult (α : Type) := Except (Err × IvCtx) (IvCtx × α)

/-- An actor passed to `WithKey` (`dgo.Producer` closed over the
invocation): it may read and mutate the invocation state, produce a
value, or panic. -/
abbrev Actor := IvCtx → IvResult (Option Value)

/-- A doer passed to `DoRedacted`.  In Go the doer returns nothing and
communicates through captured variables; the embedding lets it return a
value of type `α` (instantiate `α := Unit` for the bare `dgo.Doer`). -/
abbrev DoerP (α : Type) := IvCtx → IvResult α

/-- `ivContext.WithKey` (session.go): panic with a cyclic-lookup error
when the key's source is already on the name stack; otherwise push the
source, run the actor, and pop the last stack entry again on every exit
path (the Go `defer`), propagating the actor's value or panic. -/
def WithKey (source : String) (actor : Actor) (ic : IvCtx) : IvResult (Option Value) :=
  if source ∈ ic.nameStack then
    Except.error (Err.cyclicLookup ic.nameStack, ic)
  else
    match actor { ic with nameStack := ic.nameStack ++ [source] } with
    | Except.ok (ic₁, v) =>
        Except.ok ({ ic₁ with nameStack := ic₁.nameStack.dropLast }, v)
    | Except.error (e, ic₁) =>
        Except.error (e, { ic₁ with nameStack := ic₁.nameStack.dropLast })

/-- `ivContext.DoRedacted` (session.go): when the redaction flag is
already set, just run the doer; otherwise set the flag, run the doer,
and clear the flag again on every exit path (the Go `defer`). -/
def DoRedacted (doer : DoerP α) (ic : IvCtx) : IvResult α :=
  if ic.redacted then
    doer ic
  else
    match doer { ic with redacted := true } with
    | Except.ok (ic₁, v) => Except.ok ({ ic₁ with redacted := false }, v)
    | Except.error (e, ic₁) => Except.error (e, { ic₁ with redacted := false })

/-- An actor is stack-balanced when it returns (or panics) with the
name stack it was given — true of every engine actor, which only grows
the stack through `WithKey` itself. -/
def StackBalanced (actor : Actor) : Prop :=
  ∀ s : IvCtx,
    (∀ s₁ v, actor s = Except.ok (s₁, v) → s₁.nameStack = s.nameStack) ∧
    (∀ e s₁, actor s = Except.error (e, s₁) → s₁.nameStack = s.nameStack)

/-- The name stack of the state an `IvResult` carries, on either channel. -/
def resultStack (r : IvResult (Option Value)) : List String :=
  match r with
  | Except.ok (s, _) => s.nameStack
  | Except.error (_, s) => s.nameStack

/-- The redaction flag of the state an `IvResult` carries, on either channel. -/
def resultRedacted (r : IvResult α) : Bool :=
  match r with
  | Except.ok (s, _) => s.redacted
  | Except.error (_, s) => s.redacted

/-- A doer keeps the redaction flag set: whenever it starts on a state
whose flag is `true`, the state it returns (or panics with) still has
the flag `true`. -/
def KeepsRedacted (doer : DoerP α) : Prop :=
  ∀ s : IvCtx, s.redacted = true →
    (∀ s₁ v, doer s = Except.ok (s₁, v) → s₁.redacted = true) ∧
    (∀ e s₁, doer s = Except.error (e, s₁) → s₁.redacted = true)

/-! ## Provider cache (`src/internal/serverctx.go`) -/

/-- The session-scoped provider cache (`*sync.Map` handed to the
`serverCtx`), modelled extensionally as a partial map. -/
abbrev PCache := String → Option Value

/-- The empty cache. -/
def emptyCache : PCache := fun _ => none

/-- `sync.Map.Store`. -/
def cacheStore (c : PCache) (k : String) (v : Value) : PCache :=
  fun k₁ => if k₁ = k then some v else c k₁

/-- `sync.Map.LoadOrStore`: the existing value with `loaded = true` when
the key is present, otherwise stores the given value and reports
`loaded = false`. -/
def cacheLoadOrStore (c : PCache) (k : String) (v : Value) :
    Option Value × Bool × PCache :=
  match c k with
  | some old => (some old, true, c)
  | none => (none, false, cacheStore c k v)

/-- `serverCtx.Cache` (serverctx.go): `LoadOrStore`, then on `loaded`
overwrite with the new value and return the old one; otherwise return
the `px.Undef` sentinel.  Result: (returned value, updated cache). -/
def Cache (c : PCache) (k : String) (v : Value) : Value × PCache :=
  let (old, loaded, c₁) := cacheLoadOrStore c k v
  if loaded then
    (old.getD Value.vUndef, cacheStore c₁ k v)
  else
    (Value.vUndef, c₁)

/-- `serverCtx.CachedValue` (serverctx.go): the cached value with `true`,
or Go `nil` (here `none`) with `false`. -/
def CachedValue (c : PCache) (k : String) : Option Value × Bool :=
  match c k with
  | some v => (some v, true)
  | none => (none, false)

/-! ## Observable events of the lookup engine

The engine's interaction with the explainer and with providers is
recorded in an append-only event log: the `Push*`/`Pop`/`Accept*` calls
made on an attached explainer, the invocation of the session's top-level
provider (`ic.TopProvider()(…)`), and each `DataProvider.LookupKey`
call.  Explainer events are emitted only when an explainer is attached,
matching the `if ic.explainer == nil` guards in session.go; the two call
events are always emitted, marking the call sites themselves. -/

/-- One observable event. -/
inductive Event where
  | topProviderCall (root : String)
  | lookupKeyCall (providerName : String) (loc : Option Location)
  | pushInvalidKey (keySource : String)
  | pushDataProvider (providerName : String)
  | pushLocation (loc : Location)
  | pop
  | notFound (keySource : String)
  | locationNotFound
  | mergeSource (s : String)
deriving Repr, DecidableEq

/-- Is the event a `DataProvider.LookupKey` call? -/
def Event.isLookupKeyCall : Event → Bool
  | Event.lookupKeyCall _ _ => true
  | _ => false

/-- Is the event a top-level-provider call? -/
def Event.isTopProviderCall : Event → Bool
  | Event.topProviderCall _ => true
  | _ => false

/-- An engine computation that reads the invocation, appends events and
either produces a result or panics (provider failures, merge type
mismatches, cyclic lookups all propagate as Go panics). -/
abbrev M (α : Type) := List Event → Except Err α × List Event

/-- Append an event only when an explainer is attached. -/
def emitIf (ic : IvCtx) (e : Event) (evs : List Event) : List Event :=
  if ic.explainer.isSome then evs ++ [e] else evs

/-- `ivContext.ReportNotFound`: `AcceptNotFound` on the explainer when
one is attached, otherwise a no-op. -/
def ReportNotFound (ic : IvCtx) (keySource : String) (evs : List Event) : List Event :=
  emitIf ic (Event.notFound keySource) evs

/-- `ivContext.ReportLocationNotFound`: `AcceptLocationNotFound` on the
explainer when one is attached, otherwise a no-op. -/
def ReportLocationNotFound (ic : IvCtx) (evs : List Event) : List Event :=
  emitIf ic Event.locationNotFound evs

/-- `ivContext.ReportMergeSource`: `AcceptMergeSource` on the explainer
when one is attached, otherwise a no-op. -/
def ReportMergeSource (ic : IvCtx) (s : String) (evs : List Event) : List Event :=
  emitIf ic (Event.mergeSource s) evs

/-- The common shape of the `With*` explainer wrappers in session.go:
with no explainer the actor runs bare; with an explainer the frame is
pushed, the actor runs, and the deferred `Pop` runs on every exit path
(also when the actor panics). -/
def withFrame (ic : IvCtx) (push : Event) (actor : M α) : M α :=
  fun evs =>
    match ic.explainer with
    | none => actor evs
    | some _ =>
        let (r, evs₁) := actor (evs ++ [push])
        (r, evs₁ ++ [Event.pop])

/-- `ivContext.WithInvalidKey`. -/
def WithInvalidKey (ic : IvCtx) (keySource : String) (actor : M α) : M α :=
  withFrame ic (Event.pushInvalidKey keySource) actor

/-- `ivContext.WithDataProvider`. -/
def WithDataProvider (ic : IvCtx) (providerName : String) (actor : M α) : M α :=
  withFrame ic (Event.pushDataProvider providerName) actor

/-- `ivContext.WithLocation`. -/
def WithLocation (ic : IvCtx) (loc : Location) (actor : M α) : M α :=
  withFrame ic (Event.pushLocation loc) actor

/-- `ivContext.ForData` (session.go): already in data mode — return the
same invocation; otherwise a shallow copy whose mode is data mode, with
the explainer dropped when it is attached and reports only options. -/
def ForData (ic : IvCtx) : IvCtx :=
  if ic.mode = Mode.data then ic
  else
    { ic with
      mode := Mode.data
      explainer :=
        match ic.explainer with
        | some ex => if ex.onlyOptions then none else some ex
        | none => none }

/-- A hierarchy data provider (`hieraapi.DataProvider`): the locations
of its hierarchy entry and its `LookupKey` capability.  `lookupKey` is
opaque to the engine (in-process function or external plugin); it may
produce a value, Go `nil` (undefined), or panic. -/
structure DataProvider where
  name : String
  locations : List Location
  lookupKey : Key → Option Location → Except Err (Option Value)

/-- A merge strategy's `MergeLookup` over location candidates, as the
engine consumes it in `MergeLocations`: an opaque combinator handed the
candidate list and the per-candidate producer.  (The `merge` package is
outside the verified sources.) -/
abbrev LocMerge := List Location → (Location → M (Option Value)) → M (Option Value)

/-- `ivContext.invokeWithLocation` (session.go): with a `nil` location,
call `LookupKey` directly; otherwise, inside a location frame, call
`LookupKey` only when the location exists, else report
location-not-found and produce Go `nil` (undefined), not an error. -/
def invokeWithLocation (ic : IvCtx) (dh : DataProvider) (location : Option Location)
    (key : Key) : M (Option Value) :=
  match location with
  | none => fun evs => (dh.lookupKey key none, evs ++ [Event.lookupKeyCall dh.name none])
  | some loc =>
      WithLocation ic loc (fun evs =>
        if loc.present then
          (dh.lookupKey key (some loc), evs ++ [Event.lookupKeyCall dh.name (some loc)])
        else
          (Except.ok none, ReportLocationNotFound ic evs))

/-- `ivContext.MergeLocations` (session.go): inside a data-provider
frame, dispatch on the number of locations of the provider's hierarchy
entry: none — one direct `LookupKey` call with no location; exactly one
— invoke with that location; two or more — the merge strategy's
`MergeLookup` across the locations. -/
def MergeLocations (ic : IvCtx) (key : Key) (dh : DataProvider) (mg : LocMerge) :
    M (Option Value) :=
  WithDataProvider ic dh.name (fun evs =>
    match dh.locations with
    | [] => invokeWithLocation ic dh none key evs
    | [l] => invokeWithLocation ic dh (some l) key evs
    | ls => mg ls (fun loc => invokeWithLocation ic dh (some loc) key) evs)

/-- The engine's external collaborators as `ivContext.Lookup` consumes
them: the session's top-level provider (called with the key's root
name), recursive interpolation (`Interpolate(value, allowMethods)` on a
derived invocation) and path digging (`Key.Dig`).  All three live
outside the verified sources and are opaque here. -/
structure LookupEnv where
  topProvider : String → Except Err (Option Value)
  interpolate : IvCtx → Value → Bool → Except Err Value
  dig : IvCtx → Key → Value → Except Err (Option Value)

/-- `ivContext.Lookup` (session.go): for the reserved root
`lookup_options`, report not-found inside an invalid-key frame and
produce Go `nil`; otherwise call the top-level provider with the key's
root and, when it produced a value, interpolate it and dig the key's
remaining segments into it on the data-mode invocation `ForData`. -/
def Lookup (env : LookupEnv) (ic : IvCtx) (key : Key) : M (Option Value) :=
  if key.root = "lookup_options" then
    WithInvalidKey ic key.source (fun evs =>
      (Except.ok none, ReportNotFound ic key.source evs))
  else
    fun evs =>
      let evs₁ := evs ++ [Event.topProviderCall key.root]
      match env.topProvider key.root with
      | Except.error e => (Except.error e, evs₁)
      | Except.ok none => (Except.ok none, evs₁)
      | Except.ok (some v) =>
          let dc := ForData ic
          match env.interpolate dc v true with
          | Except.error e => (Except.error e, evs₁)
          | Except.ok v₁ =>
              match env.dig dc key v₁ with
              | Except.error e => (Except.error e, evs₁)
              | Except.ok r => (Except.ok r, evs₁)

/-- `ivContext.SetMergeStrategy` (session.go): choose the raw merge
option — the CLI option when present (reporting its source), otherwise
the `merge` entry of the lookup options when present (reporting its
source); then derive the strategy name and options — a string option is
the name itself, a map option yields the name from its `strategy` entry
with the remaining entries as options, anything else (no option at all
included) defaults the name to `first`; finally record the lookup
options and the strategy on the invocation. -/
def SetMergeStrategy (cliMergeOption : Option Value) (lookupOptions : Option VMap)
    (ic : IvCtx) : IvCtx × List Event :=
  let (opts, evs) : Option Value × List Event :=
    match cliMergeOption with
    | some c => (some c, ReportMergeSource ic "CLI option" [])
    | none =>
        match lookupOptions with
        | some lo =>
            match mapGet lo "merge" with
            | some o => (some o, ReportMergeSource ic "\x22lookup_options\x22 hash" [])
            | none => (none, [])
        | none => (none, [])
  let (mergeName, mergeOpts) : String × Option VMap :=
    match opts with
    | some (Value.vStr s) => (s, none)
    | some (Value.vMap m) =>
        match mapGet m "strategy" with
        | some (Value.vStr mn) => (mn, some (mapWithout m "strategy"))
        | _ => ("", none)
    | _ => ("first", none)
  ({ ic with luOpts := lookupOptions, strategy := some (GetStrategy mergeName mergeOpts) },
   evs)

/-- `ivContext.extractConversion` (session.go): read the `convert_to`
entry of the invocation's lookup options; an array holds the type name
first and then constructor arguments, anything else is the type name
itself; the name is parsed by the session dialect (`parseType`, opaque
here).  The Go cast `ts.(dgo.String)` panics when the type slot is not
a string; the model surfaces that as a type-mismatch error. -/
def extractConversion (parseType : String → DType) (ic : IvCtx) :
    Except Err (Option DType × Option (List Value)) :=
  match ic.luOpts with
  | none => Except.ok (none, none)
  | some lo =>
      match mapGet lo "convert_to" with
      | none => Except.ok (none, none)
      | some ct =>
          let tsArgs : Option Value × Option (List Value) :=
            match ct with
            | Value.vArr [] => (none, none)
            | Value.vArr [t] => (some t, none)
            | Value.vArr (t :: rest) => (some t, some rest)
            | other => (some other, none)
          match tsArgs with
          | (none, args) => Except.ok (none, args)
          | (some (Value.vStr s), args) => Except.ok (some (parseType s), args)
          | (some _, _) => Except.error (Err.typeMismatch "convert_to type is not a string")

/-- `vf.Arguments(vf.Values(v).WithAll(args))`: the raw value packaged
together with the extra constructor arguments (no packaging when there
are none). -/
def packArgs (cargs : Option (List Value)) (v : Value) : Value :=
  match cargs with
  | some args => Value.vArr (v :: args)
  | none => v

/-- The conversion tail of `LookupAndConvertData`: when a value was
produced and a target type was requested, package the constructor
arguments and build the instance with `vf.New` (`mkInstance`, opaque);
otherwise pass the result through unchanged. -/
def applyConversion (mkInstance : DType → Value → Value) (ctype : Option DType)
    (cargs : Option (List Value)) (r : IvResult (Option Value)) : IvResult (Option Value) :=
  match r with
  | Except.error e => Except.error e
  | Except.ok (ic₁, v) =>
      match v, ctype with
      | some w, some t => Except.ok (ic₁, some (mkInstance t (packArgs cargs w)))
      | _, _ => Except.ok (ic₁, v)

/-- `ivContext.LookupAndConvertData` (session.go): extract the
`convert_to` directive; when the requested type is the `Sensitive`
marker type run the value-producing function under `DoRedacted`,
otherwise run it directly; then apply the conversion to the produced
value. -/
def LookupAndConvertData (parseType : String → DType)
    (mkInstance : DType → Value → Value) (fn : DoerP (Option Value)) (ic : IvCtx) :
    IvResult (Option Value) :=
  match extractConversion parseType ic with
  | Except.error e => Except.error (e, ic)
  | Except.ok (ctype, cargs) =>
      let r :=
        if ctype = some DType.sensitive then DoRedacted fn ic
        else fn ic
      applyConversion mkInstance ctype cargs r

/-! ## Single-flight config construction (`ivContext.Config`, session.go)

Interleaving model of N concurrent callers invoking `Config` for the
same configuration path on a fresh session.  Each caller is a fresh
invocation (its per-invocation `configs` memo is empty), and all callers
share the session's `sync.Map` cache, which for a single path holds at
most two entries: the config entry (`HieraConfig:` + path) and the lock
entry (`HieraLock:` + path).

The atomic actions of a caller, in source order:
* read the per-invocation memo and `sc.Load` of the config entry (a
  fresh memo always misses, the cache load is one atomic read);
* lock the caller's own fresh `RWMutex` (purely local) and
  `sc.LoadOrStore` of the lock entry (the linearization point deciding
  the single winner — in this code the stored value under the lock
  entry is always a write-locked `*sync.RWMutex`, so the
  not-a-lock fallback branch of the source is unreachable);
* winner: run `config.New` (the expensive parse), `sc.Store` the parsed
  config, `Unlock`, resolve;
* loser: `RLock` on the published lock — enabled only once the winner
  has unlocked — then `sc.Load` of the config entry, `RUnlock`, resolve.

`config.New` and `Resolve` live outside the verified sources.
Modelled from the spec: `config.New` is the expensive parse/construct
routine, counted by `parseCount` and yielding a `ConfigTok` tagged with
its parse sequence number; `Resolve` is deterministic in
(Config, module name) ("ResolvedConfig derivation is deterministic
given (Config, module name)", spec §3). -/

/-- A parsed `Config`, tagged with which parse produced it. -/
structure ConfigTok where
  parseIx : Nat
deriving Repr, DecidableEq

/-- A `ResolvedConfig`: deterministic resolution of a parsed config for
a module name. -/
structure RConfig where
  conf : ConfigTok
  moduleName : String
deriving Repr, DecidableEq

/-- Modelled from the spec: `Resolve(ic, conf, moduleName)` (not under
the verified sources) derives the `ResolvedConfig` deterministically
from the parsed config and the module name. -/
def Resolve (c : ConfigTok) (m : String) : RConfig := ⟨c, m⟩

/-- Program counter of one caller inside `ivContext.Config`. -/
inductive CPC where
  | start
  | tryLock
  | parsing
  | storing (c : ConfigTok)
  | unlocking (c : ConfigTok)
  | waiting
  | done (rc : RConfig)
deriving Repr, DecidableEq

/-- The shared session state for one configuration path: the config
entry (`none` = absent), whether the lock entry has been published,
whether its writer lock is still held, and how many times `config.New`
has run. -/
structure GState where
  cacheConf : Option ConfigTok
  lockPublished : Bool
  lockHeld : Bool
  parseCount : Nat
deriving Repr, DecidableEq

/-- A system: the shared state plus each caller's program counter. -/
structure Sys (n : Nat) where
  g : GState
  pcs : Fin n → CPC

/-- The fresh session: empty cache, no lock, no parse yet, every caller
about to enter `Config`. -/
def initSys (n : Nat) : Sys n :=
  ⟨⟨none, false, false, 0⟩, fun _ => CPC.start⟩

/-- One atomic step of a single caller (module name `m`).  A blocked or
finished caller steps to itself. -/
def stepCaller (m : String) (g : GState) (pc : CPC) : GState × CPC :=
  match pc with
  | CPC.start =>
      match g.cacheConf with
      | some c => (g, CPC.done (Resolve c m))
      | none => (g, CPC.tryLock)
  | CPC.tryLock =>
      if g.lockPublished then (g, CPC.waiting)
      else ({ g with lockPublished := true, lockHeld := true }, CPC.parsing)
  | CPC.parsing =>
      ({ g with parseCount := g.parseCount + 1 }, CPC.storing ⟨g.parseCount⟩)
  | CPC.storing c =>
      ({ g with cacheConf := some c }, CPC.unlocking c)
  | CPC.unlocking c =>
      ({ g with lockHeld := false }, CPC.done (Resolve c m))
  | CPC.waiting =>
      if g.lockHeld then (g, CPC.waiting)
      else
        match g.cacheConf with
        | some c => (g, CPC.done (Resolve c m))
        | none => (g, CPC.waiting)
  | CPC.done rc => (g, CPC.done rc)

/-- Step the system by scheduling caller `i`. -/
def stepSys (m : String) (s : Sys n) (i : Fin n) : Sys n :=
  ⟨(stepCaller m s.g (s.pcs i)).1,
   fun j => if j = i then (stepCaller m s.g (s.pcs i)).2 else s.pcs j⟩

/-- Run a schedule (a list of caller choices) from a system state. -/
def runFrom (m : String) (s : Sys n) : List (Fin n) → Sys n
  | [] => s
  | i :: rest => runFrom m (stepSys m s i) rest

/-- Run a schedule from the fresh session. -/
def run (m : String) (n : Nat) (sched : List (Fin n)) : Sys n :=
  runFrom m (initSys n) sched

/-- All callers have returned from `Config`. -/
def AllDone (s : Sys n) : Prop :=
  ∀ i : Fin n, ∃ rc, s.pcs i = CPC.done rc

/-- The pc is one of the three winner stages, during which the writer
lock is held. -/
def isWinnerPC : CPC → Prop
  | CPC.parsing => True
  | CPC.storing _ => True
  | CPC.unlocking _ => True
  | _ => False

/-- Phase A: fresh — nothing published, nobody past `tryLock`. -/
def PhaseA (s : Sys n) : Prop :=
  s.g = ⟨none, false, false, 0⟩ ∧
  ∀ i, s.pcs i = CPC.start ∨ s.pcs i = CPC.tryLock

/-- Phase B: a unique winner is parsing; nothing stored yet. -/
def PhaseB (_m : String) (s : Sys n) : Prop :=
  s.g = ⟨none, true, true, 0⟩ ∧
  (∃ w, s.pcs w = CPC.parsing ∧
    ∀ i, i ≠ w → s.pcs i = CPC.start ∨ s.pcs i = CPC.tryLock ∨ s.pcs i = CPC.waiting) ∧
  ∀ i rc, s.pcs i = CPC.done rc → False

/-- Phase C: the unique winner parsed (index 0) and is about to store. -/
def PhaseC (_m : String) (s : Sys n) : Prop :=
  s.g = ⟨none, true, true, 1⟩ ∧
  (∃ w, s.pcs w = CPC.storing ⟨0⟩ ∧
    ∀ i, i ≠ w → s.pcs i = CPC.start ∨ s.pcs i = CPC.tryLock ∨ s.pcs i = CPC.waiting) ∧
  ∀ i rc, s.pcs i = CPC.done rc → False

/-- Phase D: the config is published, the winner still holds the lock.
Fast-path readers may already be done. -/
def PhaseD (m : String) (s : Sys n) : Prop :=
  s.g = ⟨some ⟨0⟩, true, true, 1⟩ ∧
  ∃ w, s.pcs w = CPC.unlocking ⟨0⟩ ∧
    ∀ i, i ≠ w → s.pcs i = CPC.start ∨ s.pcs i = CPC.tryLock ∨ s.pcs i = CPC.waiting ∨
      s.pcs i = CPC.done (Resolve ⟨0⟩ m)

/-- Phase E: config published, lock released; every caller is on its way
to (or at) the fast path's result. -/
def PhaseE (m : String) (s : Sys n) : Prop :=
  s.g = ⟨some ⟨0⟩, true, false, 1⟩ ∧
  ∀ i, s.pcs i = CPC.start ∨ s.pcs i = CPC.tryLock ∨ s.pcs i = CPC.waiting ∨
    s.pcs i = CPC.done (Resolve ⟨0⟩ m)

/-- The global invariant of the single-flight protocol. -/
def Inv (m : String) (s : Sys n) : Prop :=
  PhaseA s ∨ PhaseB m s ∨ PhaseC m s ∨ PhaseD m s ∨ PhaseE m s

/-! ## Concrete fixtures used to evaluate the engine at specific inputs -/

/-- Concrete collaborators: a top-level provider that finds nothing,
identity interpolation, digging that finds nothing. -/
def cexEnv : LookupEnv :=
  ⟨fun _ => Except.ok none, fun _ v _ => Except.ok v, fun _ _ _ => Except.ok none⟩

/-- An invocation with an attached full-visibility explainer. -/
def cexIv : IvCtx :=
  ⟨[], none, none, Mode.topLevel, false, some ⟨false, false⟩⟩

/-- An invocation with no explainer attached. -/
def quietIv : IvCtx :=
  ⟨[], none, none, Mode.topLevel, false, none⟩

/-- A provider with a single location whose backing resource is absent;
its `LookupKey` would produce a value if it were ever invoked. -/
def cexProvider : DataProvider :=
  ⟨"yaml", [⟨"common.yaml", false⟩], fun _ _ => Except.ok (some (Value.vInt 42))⟩

/-- A trivial merge combinator, for cases where the strategy must be
irrelevant. -/
def cexMerge : LocMerge := fun _ _ evs => (Except.ok none, evs)

/-! # Theorems -/

/-- Helper: appending to an association-function cache. -/
theorem cacheStore_self (c : PCache) (k : String) (v : Value) :
    cacheStore c k v k = some v := by
  simp [cacheStore]

/-- **C7** `ServerContext.Cache(key, value)` stores the value and
returns the previously stored one, or the `px.Undef` sentinel when none
existed; on an empty cache `Cache("x", 1)` returns the sentinel and
stores 1, a subsequent `Cache("x", 2)` returns 1 and stores 2, and
`CachedValue("x")` then returns `(2, true)`. -/
theorem c7_cache_last_write_wins :
    (∀ (c : PCache) (k : String) (v : Value),
      (Cache c k v).2 k = some v ∧
      (Cache c k v).1 = (c k).getD Value.vUndef ∧
      ∀ k' : String, k' ≠ k → (Cache c k v).2 k' = c k') ∧
    (Cache emptyCache "x" (Value.vInt 1)).1 = Value.vUndef ∧
    (Cache (Cache emptyCache "x" (Value.vInt 1)).2 "x" (Value.vInt 2)).1 = Value.vInt 1 ∧
    CachedValue (Cache (Cache emptyCache "x" (Value.vInt 1)).2 "x" (Value.vInt 2)).2 "x"
      = (some (Value.vInt 2), true) := by
  refine ⟨fun c k v => ?_, by rfl, by rfl, by rfl⟩
  cases h : c k with
  | some old =>
      exact ⟨by simp [Cache, cacheLoadOrStore, cacheStore, h],
        by simp [Cache, cacheLoadOrStore, cacheStore, h],
        fun k' hk' => by simp [Cache, cacheLoadOrStore, cacheStore, h, hk']⟩
  | none =>
      exact ⟨by simp [Cache, cacheLoadOrStore, cacheStore, h],
        by simp [Cache, cacheLoadOrStore, cacheStore, h],
        fun k' hk' => by simp [Cache, cacheLoadOrStore, cacheStore, h, hk']⟩

/-- **C7 witness**: the general part applied at a concrete cache and
keys. -/
theorem c7_cache_last_write_wins_witness :
    ("y" : String) ≠ "x" ∧ (Cache emptyCache "x" (Value.vInt 1)).2 "y" = emptyCache "y" :=
  ⟨by decide, ((c7_cache_last_write_wins.1 emptyCache "x" (Value.vInt 1)).2.2 "y") (by decide)⟩

/-- Helper: `WithKey` on a stack already holding the source. -/
theorem withKey_mem_eq (source : String) (actor : Actor) (ic : IvCtx)
    (hmem : source ∈ ic.nameStack) :
    WithKey source actor ic = Except.error (Err.cyclicLookup ic.nameStack, ic) := by
  simp [WithKey, hmem]

/-- Helper: `WithKey` when the actor returns normally. -/
theorem withKey_ok_eq (source : String) (actor : Actor) (ic ic₁ : IvCtx) (v : Option Value)
    (hmem : source ∉ ic.nameStack)
    (hact : actor { ic with nameStack := ic.nameStack ++ [source] } = Except.ok (ic₁, v)) :
    WithKey source actor ic =
      Except.ok ({ ic₁ with nameStack := ic₁.nameStack.dropLast }, v) := by
  simp [WithKey, hmem, hact]

/-- Helper: `WithKey` when the actor panics. -/
theorem withKey_err_eq (source : String) (actor : Actor) (ic ic₁ : IvCtx) (e : Err)
    (hmem : source ∉ ic.nameStack)
    (hact : actor { ic with nameStack := ic.nameStack ++ [source] } = Except.error (e, ic₁)) :
    WithKey source actor ic =
      Except.error (e, { ic₁ with nameStack := ic₁.nameStack.dropLast }) := by
  simp [WithKey, hmem, hact]

/-- **C2** `WithKey` raises a cyclic-lookup error exactly when the key's
source is already on the name stack; otherwise it runs the actor with
the source pushed (so a duplicate-free stack stays duplicate-free) and
restores the stack on return and on error; for stack-balanced actors the
stack after the call equals the stack before it, and the wrapped call is
itself stack-balanced, so the discipline nests to any depth. -/
theorem c2_withKey_recursion_detection :
    ∀ (source : String) (actor : Actor) (ic : IvCtx),
      (source ∈ ic.nameStack →
        WithKey source actor ic = Except.error (Err.cyclicLookup ic.nameStack, ic)) ∧
      (source ∉ ic.nameStack →
        (∀ ic₁ v, actor { ic with nameStack := ic.nameStack ++ [source] } = Except.ok (ic₁, v) →
          WithKey source actor ic =
            Except.ok ({ ic₁ with nameStack := ic₁.nameStack.dropLast }, v)) ∧
        (∀ e ic₁,
          actor { ic with nameStack := ic.nameStack ++ [source] } = Except.error (e, ic₁) →
          WithKey source actor ic =
            Except.error (e, { ic₁ with nameStack := ic₁.nameStack.dropLast })) ∧
        (ic.nameStack.Nodup → (ic.nameStack ++ [source]).Nodup) ∧
        (StackBalanced actor → resultStack (WithKey source actor ic) = ic.nameStack)) ∧
      (StackBalanced actor → StackBalanced (WithKey source actor)) := by
  intro source actor ic
  refine ⟨fun hmem => withKey_mem_eq source actor ic hmem,
    fun hmem => ⟨fun ic₁ v hact => withKey_ok_eq source actor ic ic₁ v hmem hact,
      fun e ic₁ hact => withKey_err_eq source actor ic ic₁ e hmem hact, ?_, ?_⟩, ?_⟩
  · intro hnd
    simp [List.nodup_append, hnd]
    simpa using hmem
  · intro hbal
    cases hact : actor { ic with nameStack := ic.nameStack ++ [source] } with
    | ok p =>
        obtain ⟨ic₁, v⟩ := p
        have hb := (hbal { ic with nameStack := ic.nameStack ++ [source] }).1 ic₁ v hact
        rw [withKey_ok_eq source actor ic ic₁ v hmem hact]
        simp [resultStack, hb]
    | error p =>
        obtain ⟨e, ic₁⟩ := p
        have hb := (hbal { ic with nameStack := ic.nameStack ++ [source] }).2 e ic₁ hact
        rw [withKey_err_eq source actor ic ic₁ e hmem hact]
        simp [resultStack, hb]
  · intro hbal s
    constructor
    · intro s₁ v h
      by_cases hmem : source ∈ s.nameStack
      · rw [withKey_mem_eq source actor s hmem] at h
        cases h
      · cases hact : actor { s with nameStack := s.nameStack ++ [source] } with
        | ok p =>
            obtain ⟨ic₁, v₁⟩ := p
            rw [withKey_ok_eq source actor s ic₁ v₁ hmem hact] at h
            have hb := (hbal { s with nameStack := s.nameStack ++ [source] }).1 ic₁ v₁ hact
            injection h with h'
            injection h' with ha hv
            rw [← ha]
            simp [hb]
        | error p =>
            obtain ⟨e, ic₁⟩ := p
            rw [withKey_err_eq source actor s ic₁ e hmem hact] at h
            cases h
    · intro e s₁ h
      by_cases hmem : source ∈ s.nameStack
      · rw [withKey_mem_eq source actor s hmem] at h
        injection h with h'
        injection h' with he hs
        rw [← hs]
      · cases hact : actor { s with nameStack := s.nameStack ++ [source] } with
        | ok p =>
            obtain ⟨ic₁, v₁⟩ := p
            rw [withKey_ok_eq source actor s ic₁ v₁ hmem hact] at h
            cases h
        | error p =>
            obtain ⟨e₁, ic₁⟩ := p
            rw [withKey_err_eq source actor s ic₁ e₁ hmem hact] at h
            have hb := (hbal { s with nameStack := s.nameStack ++ [source] }).2 e₁ ic₁ hact
            injection h with h'
            injection h' with he hs
            rw [← hs]
            simp [hb]

/-- **C2 witness**: a concrete cyclic hit, and a concrete balanced actor
whose run restores the stack. -/
theorem c2_withKey_recursion_detection_witness :
    ("a" : String) ∈ ["a"] ∧
    WithKey "a" (fun s => Except.ok (s, some (Value.vInt 7)))
        ⟨["a"], none, none, Mode.topLevel, false, none⟩ =
      Except.error (Err.cyclicLookup ["a"],
        ⟨["a"], none, none, Mode.topLevel, false, none⟩) ∧
    ("b" : String) ∉ ["a"] ∧
    resultStack (WithKey "b" (fun s => Except.ok (s, some (Value.vInt 7)))
        ⟨["a"], none, none, Mode.topLevel, false, none⟩) = ["a"] := by
  refine ⟨by decide, ?_, by decide, ?_⟩
  · exact (c2_withKey_recursion_detection "a" (fun s => Except.ok (s, some (Value.vInt 7)))
      ⟨["a"], none, none, Mode.topLevel, false, none⟩).1 (by decide)
  · exact ((c2_withKey_recursion_detection "b" (fun s => Except.ok (s, some (Value.vInt 7)))
      ⟨["a"], none, none, Mode.topLevel, false, none⟩).2.1 (by decide)).2.2.2
      (fun s => ⟨fun s₁ v h => by cases h; rfl, fun e s₁ h => by cases h⟩)

/-- **C10** `DoRedacted` runs the action on a state whose redaction flag
is `true`; a call entered with the flag clear resets it to `false` on
return and on error, and a nested call entered with the flag set leaves
the state to the action, so for actions that keep the flag set the flag
after the call equals the flag before it. -/
theorem c10_doRedacted_restores_flag (α : Type) (doer : DoerP α) (ic : IvCtx) :
    (ic.redacted = true → DoRedacted doer ic = doer ic) ∧
    (ic.redacted = false →
      (∀ ic₁ v, doer { ic with redacted := true } = Except.ok (ic₁, v) →
        DoRedacted doer ic = Except.ok ({ ic₁ with redacted := false }, v)) ∧
      (∀ e ic₁, doer { ic with redacted := true } = Except.error (e, ic₁) →
        DoRedacted doer ic = Except.error (e, { ic₁ with redacted := false }))) ∧
    (KeepsRedacted doer → resultRedacted (DoRedacted doer ic) = ic.redacted) := by
  refine ⟨fun hr => ?_, fun hr => ⟨fun ic₁ v h => ?_, fun e ic₁ h => ?_⟩, fun hk => ?_⟩
  · simp [DoRedacted, hr]
  · simp [DoRedacted, hr, h]
  · simp [DoRedacted, hr, h]
  · cases hr : ic.redacted with
    | true =>
        have hic : DoRedacted doer ic = doer ic := by simp [DoRedacted, hr]
        rw [hic]
        have hkr := hk ic hr
        cases h : doer ic with
        | ok p =>
            obtain ⟨s₁, v⟩ := p
            simpa [resultRedacted] using hkr.1 s₁ v h
        | error p =>
            obtain ⟨e, s₁⟩ := p
            simpa [resultRedacted] using hkr.2 e s₁ h
    | false =>
        unfold DoRedacted
        rw [hr]
        simp only [Bool.false_eq_true, if_false]
        cases h : doer { ic with redacted := true } with
        | ok p => simp [h, resultRedacted]
        | error p => simp [h, resultRedacted]

/-- **C10 witness**: a concrete doer that keeps the flag set, run from a
clear-flag state and from a set-flag state. -/
theorem c10_doRedacted_restores_flag_witness :
    resultRedacted (DoRedacted (fun s => Except.ok (s, ())) quietIv) = quietIv.redacted ∧
    resultRedacted (DoRedacted (fun s => Except.ok (s, ()))
      ⟨[], none, none, Mode.topLevel, true, none⟩) = true := by
  constructor
  · exact (c10_doRedacted_restores_flag Unit (fun s => Except.ok (s, ())) quietIv).2.2
      (fun s hs => ⟨fun s₁ v h => by cases h; exact hs, fun e s₁ h => by cases h⟩)
  · exact (c10_doRedacted_restores_flag Unit (fun s => Except.ok (s, ()))
      ⟨[], none, none, Mode.topLevel, true, none⟩).2.2
      (fun s hs => ⟨fun s₁ v h => by cases h; exact hs, fun e s₁ h => by cases h⟩)

/-- Helper: `Lookup` on the reserved root, as one equation. -/
theorem lookup_options_eq (env : LookupEnv) (ic : IvCtx) (key : Key) (evs : List Event)
    (hroot : key.root = "lookup_options") :
    Lookup env ic key evs =
      (Except.ok none,
       evs ++ (if ic.explainer.isSome then
         [Event.pushInvalidKey key.source, Event.notFound key.source, Event.pop]
         else [])) := by
  cases hex : ic.explainer with
  | none => simp [Lookup, hroot, WithInvalidKey, withFrame, ReportNotFound, emitIf, hex]
  | some ex => simp [Lookup, hroot, WithInvalidKey, withFrame, ReportNotFound, emitIf, hex]

/-- Helper: off the reserved root, the engine's own event contribution
is exactly the top-provider call. -/
theorem lookup_events_eq (env : LookupEnv) (ic : IvCtx) (key : Key) (evs : List Event)
    (hroot : key.root ≠ "lookup_options") :
    (Lookup env ic key evs).2 = evs ++ [Event.topProviderCall key.root] := by
  cases h : env.topProvider key.root with
  | error e => simp [Lookup, hroot, h]
  | ok ov =>
      cases ov with
      | none => simp [Lookup, hroot, h]
      | some v =>
          cases h₂ : env.interpolate (ForData ic) v true with
          | error e => simp [Lookup, hroot, h, h₂]
          | ok v₁ =>
              cases h₃ : env.dig (ForData ic) key v₁ with
              | error e => simp [Lookup, hroot, h, h₂, h₃]
              | ok r => simp [Lookup, hroot, h, h₂, h₃]

/-- Helper: `ForData` always yields a data-mode invocation. -/
theorem forData_mode (ic : IvCtx) : (ForData ic).mode = Mode.data := by
  by_cases h : ic.mode = Mode.data
  · simp [ForData, h]
  · simp [ForData, h]

/-- **C3** for a key rooted at `lookup_options`, `Lookup` never calls
the top-level provider or any merge machinery (its outcome and events
are the same for every environment of collaborators and contain no
provider-call marks); it reports not-found inside an invalid-key frame
when an explainer is attached, and produces Go `nil` (undefined). -/
theorem c3_lookup_options_short_circuit :
    ∀ (env : LookupEnv) (ic : IvCtx) (key : Key) (evs : List Event),
      key.root = "lookup_options" →
      Lookup env ic key evs =
        (Except.ok none,
         evs ++ (if ic.explainer.isSome then
           [Event.pushInvalidKey key.source, Event.notFound key.source, Event.pop]
           else [])) ∧
      (∀ env' : LookupEnv, Lookup env ic key evs = Lookup env' ic key evs) ∧
      (∀ e ∈ (Lookup env ic key []).2,
        e.isTopProviderCall = false ∧ e.isLookupKeyCall = false) := by
  intro env ic key evs hroot
  refine ⟨lookup_options_eq env ic key evs hroot, fun env' => ?_, ?_⟩
  · rw [lookup_options_eq env ic key evs hroot, lookup_options_eq env' ic key evs hroot]
  · intro e he
    rw [lookup_options_eq env ic key [] hroot] at he
    cases hex : ic.explainer.isSome with
    | false =>
        rw [hex] at he
        simp at he
    | true =>
        rw [hex] at he
        simp at he
        rcases he with rfl | rfl | rfl <;>
          exact ⟨rfl, rfl⟩

/-- **C3 witness**: the reserved root at a concrete key with an
explainer attached. -/
theorem c3_lookup_options_short_circuit_witness :
    Lookup cexEnv cexIv ⟨"lookup_options", [], "lookup_options"⟩ [] =
      (Except.ok none,
       [Event.pushInvalidKey "lookup_options", Event.notFound "lookup_options",
        Event.pop]) :=
  (c3_lookup_options_short_circuit cexEnv cexIv
    ⟨"lookup_options", [], "lookup_options"⟩ [] rfl).1

/-- **C4 (amended)** for every other root, `Lookup` calls the top-level
provider with the key's root — and emits no other event of its own, in
particular no not-found report; a defined provider result is
interpolated on the data-mode invocation `ForData` and the key's
remaining segments are dug into it; an undefined provider result is
returned as undefined. -/
theorem c4_lookup_via_top_provider (env : LookupEnv) (ic : IvCtx) (key : Key)
    (evs : List Event) (hroot : key.root ≠ "lookup_options") :
    (Lookup env ic key evs).2 = evs ++ [Event.topProviderCall key.root] ∧
    (env.topProvider key.root = Except.ok none →
      (Lookup env ic key evs).1 = Except.ok none) ∧
    (∀ v, env.topProvider key.root = Except.ok (some v) →
      (ForData ic).mode = Mode.data ∧
      ∀ v₁, env.interpolate (ForData ic) v true = Except.ok v₁ →
        (Lookup env ic key evs).1 = env.dig (ForData ic) key v₁) ∧
    (∀ s, Event.notFound s ∉ (Lookup env ic key []).2) := by
  refine ⟨lookup_events_eq env ic key evs hroot, fun h => ?_, fun v h => ⟨forData_mode ic, ?_⟩,
    fun s => ?_⟩
  · simp [Lookup, hroot, h]
  · intro v₁ h₂
    cases h₃ : env.dig (ForData ic) key v₁ with
    | error e => simp [Lookup, hroot, h, h₂, h₃]
    | ok r => simp [Lookup, hroot, h, h₂, h₃]
  · rw [lookup_events_eq env ic key [] hroot]
    simp

/-- **C4 witness**: the amended behaviour at a concrete key whose value
the top-level provider does not find. -/
theorem c4_lookup_via_top_provider_witness :
    (("a" : String) ≠ "lookup_options") ∧
    (Lookup cexEnv cexIv ⟨"a", [], "a"⟩ []).2 = [Event.topProviderCall "a"] ∧
    (Lookup cexEnv cexIv ⟨"a", [], "a"⟩ []).1 = Except.ok none :=
  ⟨by decide,
   (c4_lookup_via_top_provider cexEnv cexIv ⟨"a", [], "a"⟩ [] (by decide)).1,
   (c4_lookup_via_top_provider cexEnv cexIv ⟨"a", [], "a"⟩ [] (by decide)).2.1 rfl⟩

/-- **C4 counterexample**: with an explainer attached and a top-level
provider that returns undefined for root `a`, `Lookup` returns undefined
but emits no not-found report at all — the claim's "reports not-found to
the explainer" clause does not hold on this code path. -/
theorem c4_lookup_not_found_never_reported_cex :
    (Lookup cexEnv cexIv ⟨"a", [], "a"⟩ []).1 = Except.ok none ∧
    (Lookup cexEnv cexIv ⟨"a", [], "a"⟩ []).2 = [Event.topProviderCall "a"] ∧
    Event.notFound "a" ∉ (Lookup cexEnv cexIv ⟨"a", [], "a"⟩ []).2 := by
  refine ⟨rfl, rfl, ?_⟩
  intro h
  have he : (Lookup cexEnv cexIv ⟨"a", [], "a"⟩ []).2 = [Event.topProviderCall "a"] := rfl
  rw [he] at h
  simp at h

/-- Helper: `invokeWithLocation` with no location is one direct
`LookupKey` call. -/
theorem invoke_no_location_eq (ic : IvCtx) (dh : DataProvider) (key : Key)
    (evs : List Event) :
    invokeWithLocation ic dh none key evs =
      (dh.lookupKey key none, evs ++ [Event.lookupKeyCall dh.name none]) := rfl

/-- Helper: `invokeWithLocation` at an existing location. -/
theorem invoke_present_eq (ic : IvCtx) (dh : DataProvider) (l : Location) (key : Key)
    (evs : List Event) (hp : l.present = true) :
    invokeWithLocation ic dh (some l) key evs =
      (dh.lookupKey key (some l),
       (evs ++ (if ic.explainer.isSome then [Event.pushLocation l] else [])
          ++ [Event.lookupKeyCall dh.name (some l)])
         ++ (if ic.explainer.isSome then [Event.pop] else [])) := by
  cases hex : ic.explainer with
  | none => simp [invokeWithLocation, WithLocation, withFrame, hex, hp]
  | some ex => simp [invokeWithLocation, WithLocation, withFrame, hex, hp]

/-- Helper: `invokeWithLocation` at an absent location. -/
theorem invoke_absent_eq (ic : IvCtx) (dh : DataProvider) (l : Location) (key : Key)
    (evs : List Event) (hp : l.present = false) :
    invokeWithLocation ic dh (some l) key evs =
      (Except.ok none,
       evs ++ (if ic.explainer.isSome then
         [Event.pushLocation l, Event.locationNotFound, Event.pop] else [])) := by
  cases hex : ic.explainer with
  | none =>
      simp [invokeWithLocation, WithLocation, withFrame, ReportLocationNotFound, emitIf,
        hex, hp]
  | some ex =>
      simp [invokeWithLocation, WithLocation, withFrame, ReportLocationNotFound, emitIf,
        hex, hp]

/-- **C6** before invoking a provider at a location whose backing
resource is absent, the engine never calls `LookupKey`: it reports
location-not-found to an attached explainer and produces Go `nil`
(undefined), not an error. -/
theorem c6_absent_location_skipped (ic : IvCtx) (dh : DataProvider) (l : Location)
    (key : Key) (evs : List Event) (hp : l.present = false) :
    invokeWithLocation ic dh (some l) key evs =
      (Except.ok none,
       evs ++ (if ic.explainer.isSome then
         [Event.pushLocation l, Event.locationNotFound, Event.pop] else [])) ∧
    (invokeWithLocation ic dh (some l) key evs).2.filter Event.isLookupKeyCall =
      evs.filter Event.isLookupKeyCall ∧
    (ic.explainer.isSome = true →
      Event.locationNotFound ∈ (invokeWithLocation ic dh (some l) key evs).2) := by
  refine ⟨invoke_absent_eq ic dh l key evs hp, ?_, ?_⟩
  · rw [invoke_absent_eq ic dh l key evs hp]
    cases hex : ic.explainer.isSome with
    | false => simp
    | true => simp [Event.isLookupKeyCall]
  · intro hex
    rw [invoke_absent_eq ic dh l key evs hp]
    simp [hex]

/-- **C6 witness**: the absent location of the concrete provider. -/
theorem c6_absent_location_skipped_witness :
    invokeWithLocation cexIv cexProvider (some ⟨"common.yaml", false⟩) ⟨"k", [], "k"⟩ [] =
      (Except.ok none,
       [Event.pushLocation ⟨"common.yaml", false⟩, Event.locationNotFound, Event.pop]) :=
  (c6_absent_location_skipped cexIv cexProvider ⟨"common.yaml", false⟩ ⟨"k", [], "k"⟩ []
    rfl).1

/-- **C5 (amended)** `MergeLocations` calls the provider's `LookupKey`
exactly once with no location when the hierarchy entry has zero
locations; with exactly one location it calls it exactly once with that
location provided the location exists, and does not call it at all when
the location is absent (producing undefined); the merge strategy is
consulted only when there are two or more locations, in which case the
lookup is its `MergeLookup` across the locations. -/
theorem c5_mergeLocations_dispatch (ic : IvCtx) (key : Key) (dh : DataProvider)
    (mg : LocMerge) (evs : List Event) :
    (dh.locations = [] →
      (MergeLocations ic key dh mg evs).1 = dh.lookupKey key none ∧
      (MergeLocations ic key dh mg evs).2.filter Event.isLookupKeyCall =
        evs.filter Event.isLookupKeyCall ++ [Event.lookupKeyCall dh.name none]) ∧
    (∀ l, dh.locations = [l] → l.present = true →
      (MergeLocations ic key dh mg evs).1 = dh.lookupKey key (some l) ∧
      (MergeLocations ic key dh mg evs).2.filter Event.isLookupKeyCall =
        evs.filter Event.isLookupKeyCall ++ [Event.lookupKeyCall dh.name (some l)]) ∧
    (∀ l, dh.locations = [l] → l.present = false →
      (MergeLocations ic key dh mg evs).1 = Except.ok none ∧
      (MergeLocations ic key dh mg evs).2.filter Event.isLookupKeyCall =
        evs.filter Event.isLookupKeyCall) ∧
    (dh.locations.length ≤ 1 → ∀ mg₁ mg₂ : LocMerge,
      MergeLocations ic key dh mg₁ evs = MergeLocations ic key dh mg₂ evs) ∧
    (∀ l₁ l₂ rest, dh.locations = l₁ :: l₂ :: rest →
      MergeLocations ic key dh mg evs =
        WithDataProvider ic dh.name
          (mg (l₁ :: l₂ :: rest) (fun loc => invokeWithLocation ic dh (some loc) key))
          evs) := by
  refine ⟨fun h0 => ?_, fun l h1 hp => ?_, fun l h1 hp => ?_, fun hle mg₁ mg₂ => ?_,
    fun l₁ l₂ rest h2 => ?_⟩
  · cases hex : ic.explainer with
    | none =>
        constructor <;>
          simp [MergeLocations, WithDataProvider, withFrame, h0, invoke_no_location_eq,
            hex, Event.isLookupKeyCall]
    | some ex =>
        constructor <;>
          simp [MergeLocations, WithDataProvider, withFrame, h0, invoke_no_location_eq,
            hex, Event.isLookupKeyCall]
  · cases hex : ic.explainer with
    | none =>
        constructor <;>
          simp [MergeLocations, WithDataProvider, withFrame, h1,
            invoke_present_eq ic dh l key _ hp, hex, Event.isLookupKeyCall]
    | some ex =>
        constructor <;>
          simp [MergeLocations, WithDataProvider, withFrame, h1,
            invoke_present_eq ic dh l key _ hp, hex, Event.isLookupKeyCall]
  · cases hex : ic.explainer with
    | none =>
        constructor <;>
          simp [MergeLocations, WithDataProvider, withFrame, h1,
            invoke_absent_eq ic dh l key _ hp, hex, Event.isLookupKeyCall]
    | some ex =>
        constructor <;>
          simp [MergeLocations, WithDataProvider, withFrame, h1,
            invoke_absent_eq ic dh l key _ hp, hex, Event.isLookupKeyCall]
  · match hloc : dh.locations with
    | [] => simp [MergeLocations, WithDataProvider, withFrame, hloc]
    | [l] => simp [MergeLocations, WithDataProvider, withFrame, hloc]
    | l₁ :: l₂ :: rest => rw [hloc] at hle; simp at hle
  · simp [MergeLocations, WithDataProvider, withFrame, h2]

/-- **C5 witness**: the zero-location dispatch at a concrete provider
with no locations. -/
theorem c5_mergeLocations_dispatch_witness :
    (MergeLocations quietIv ⟨"k", [], "k"⟩ ⟨"env", [], fun _ _ => Except.ok none⟩
        cexMerge []).1 = Except.ok none ∧
    (MergeLocations quietIv ⟨"k", [], "k"⟩ ⟨"env", [], fun _ _ => Except.ok none⟩
        cexMerge []).2.filter Event.isLookupKeyCall =
      [Event.lookupKeyCall "env" none] :=
  (c5_mergeLocations_dispatch quietIv ⟨"k", [], "k"⟩
    ⟨"env", [], fun _ _ => Except.ok none⟩ cexMerge []).1 rfl

/-- **C5 counterexample**: a provider with exactly one location whose
backing resource is absent — `LookupKey` is called zero times, not
"exactly once with the single location" as the claim states. -/
theorem c5_single_absent_location_cex :
    (MergeLocations cexIv ⟨"k", [], "k"⟩ cexProvider cexMerge []).2.filter
        Event.isLookupKeyCall = [] ∧
    Event.lookupKeyCall "yaml" (some ⟨"common.yaml", false⟩) ∉
      (MergeLocations cexIv ⟨"k", [], "k"⟩ cexProvider cexMerge []).2 := by
  refine ⟨rfl, ?_⟩
  intro h
  simp [MergeLocations, WithDataProvider, withFrame, cexProvider, cexIv, cexMerge,
    invokeWithLocation, WithLocation, ReportLocationNotFound, emitIf] at h

/-- **C8** `SetMergeStrategy` derives the active strategy from the CLI
merge option when present (ignoring the lookup options' `merge` entry),
otherwise from the `merge` entry of the lookup options; when neither
source supplies one, the default strategy `first` with no options is
selected; a map option names the strategy in its `strategy` entry and
passes the remaining entries as merge options. -/
theorem c8_merge_strategy_selection (cli : Option Value) (lo : Option VMap) (ic : IvCtx) :
    (∀ s, cli = some (Value.vStr s) →
      (SetMergeStrategy cli lo ic).1.strategy = some (GetStrategy s none)) ∧
    (∀ m s, cli = some (Value.vMap m) → mapGet m "strategy" = some (Value.vStr s) →
      (SetMergeStrategy cli lo ic).1.strategy =
        some (GetStrategy s (some (mapWithout m "strategy")))) ∧
    (∀ c lo₂, cli = some c →
      (SetMergeStrategy cli lo ic).1.strategy = (SetMergeStrategy cli lo₂ ic).1.strategy) ∧
    (∀ lo₁ o, cli = none → lo = some lo₁ → mapGet lo₁ "merge" = some o →
      (SetMergeStrategy cli lo ic).1.strategy =
        (SetMergeStrategy (some o) lo ic).1.strategy) ∧
    (cli = none → lo = none →
      (SetMergeStrategy cli lo ic).1.strategy = some (GetStrategy "first" none)) ∧
    (∀ lo₁, cli = none → lo = some lo₁ → mapGet lo₁ "merge" = none →
      (SetMergeStrategy cli lo ic).1.strategy = some (GetStrategy "first" none)) := by
  refine ⟨fun s hc => ?_, fun m s hc hs => ?_, fun c lo₂ hc => ?_,
    fun lo₁ o hc hl hm => ?_, fun hc hl => ?_, fun lo₁ hc hl hm => ?_⟩
  · simp [SetMergeStrategy, hc]
  · simp [SetMergeStrategy, hc, hs]
  · cases c with
    | vStr s => simp [SetMergeStrategy, hc]
    | vInt n => simp [SetMergeStrategy, hc]
    | vBool b => simp [SetMergeStrategy, hc]
    | vArr a => simp [SetMergeStrategy, hc]
    | vUndef => simp [SetMergeStrategy, hc]
    | vMap m =>
        cases hs : mapGet m "strategy" with
        | none => simp [SetMergeStrategy, hc, hs]
        | some sv =>
            cases sv <;> simp [SetMergeStrategy, hc, hs]
  · simp [SetMergeStrategy, hc, hl, hm]
  · simp [SetMergeStrategy, hc, hl]
  · simp [SetMergeStrategy, hc, hl, hm]

/-- **C8 witness**: the precedence and the default at concrete inputs. -/
theorem c8_merge_strategy_selection_witness :
    (SetMergeStrategy (some (Value.vStr "deep"))
        (some [("merge", Value.vStr "unique")]) quietIv).1.strategy =
      some (GetStrategy "deep" none) ∧
    (SetMergeStrategy none (some [("merge", Value.vMap [("strategy", Value.vStr "deep"),
        ("knockout_prefix", Value.vStr "--")])]) quietIv).1.strategy =
      some (GetStrategy "deep" (some [("knockout_prefix", Value.vStr "--")])) ∧
    (SetMergeStrategy none none quietIv).1.strategy =
      some (GetStrategy "first" none) ∧
    (SetMergeStrategy none (some [("convert_to", Value.vStr "String")])
        quietIv).1.strategy = some (GetStrategy "first" none) := by
  refine ⟨(c8_merge_strategy_selection (some (Value.vStr "deep"))
      (some [("merge", Value.vStr "unique")]) quietIv).1 "deep" rfl, ?_,
    (c8_merge_strategy_selection none none quietIv).2.2.2.2.1 rfl rfl,
    (c8_merge_strategy_selection none (some [("convert_to", Value.vStr "String")])
      quietIv).2.2.2.2.2 [("convert_to", Value.vStr "String")] rfl rfl (by rfl)⟩
  · have h₁ := (c8_merge_strategy_selection none
      (some [("merge", Value.vMap [("strategy", Value.vStr "deep"),
        ("knockout_prefix", Value.vStr "--")])]) quietIv).2.2.2.1
      [("merge", Value.vMap [("strategy", Value.vStr "deep"),
        ("knockout_prefix", Value.vStr "--")])]
      (Value.vMap [("strategy", Value.vStr "deep"), ("knockout_prefix", Value.vStr "--")])
      rfl rfl (by rfl)
    have h₂ := (c8_merge_strategy_selection
      (some (Value.vMap [("strategy", Value.vStr "deep"),
        ("knockout_prefix", Value.vStr "--")]))
      (some [("merge", Value.vMap [("strategy", Value.vStr "deep"),
        ("knockout_prefix", Value.vStr "--")])]) quietIv).2.1
      [("strategy", Value.vStr "deep"), ("knockout_prefix", Value.vStr "--")] "deep"
      rfl (by rfl)
    rw [h₁, h₂]
    rfl

/-- **C9** `LookupAndConvertData`: when the `convert_to` directive of
the lookup options parses to the `Sensitive` marker type, the
value-producing function runs under `DoRedacted` — on a state whose
redaction flag is `true`, with the flag cleared again afterwards when it
was clear before; any other (or no) target type runs the function on the
unchanged invocation; whenever a target type is present, a produced
value is rebuilt as an instance of that type from the value packaged
with the supplied constructor arguments. -/
theorem c9_convert_to_sensitive (parseType : String → DType)
    (mkInstance : DType → Value → Value) (fn : DoerP (Option Value)) (ic : IvCtx)
    (ct : Option DType) (ca : Option (List Value))
    (hex : extractConversion parseType ic = Except.ok (ct, ca)) :
    (ct = some DType.sensitive →
      LookupAndConvertData parseType mkInstance fn ic =
        applyConversion mkInstance ct ca (DoRedacted fn ic) ∧
      (ic.redacted = false → ∀ ic₁ v,
        fn { ic with redacted := true } = Except.ok (ic₁, v) →
        LookupAndConvertData parseType mkInstance fn ic =
          applyConversion mkInstance ct ca
            (Except.ok ({ ic₁ with redacted := false }, v))) ∧
      (ic.redacted = true →
        LookupAndConvertData parseType mkInstance fn ic =
          applyConversion mkInstance ct ca (fn ic))) ∧
    (ct ≠ some DType.sensitive →
      LookupAndConvertData parseType mkInstance fn ic =
        applyConversion mkInstance ct ca (fn ic)) ∧
    (∀ t ic₁ w, ct = some t →
      applyConversion mkInstance ct ca (Except.ok (ic₁, some w)) =
        Except.ok (ic₁, some (mkInstance t (packArgs ca w)))) := by
  refine ⟨fun hsen => ⟨?_, fun hr ic₁ v hfn => ?_, fun hr => ?_⟩, fun hsen => ?_,
    fun t ic₁ w hct => ?_⟩
  · simp [LookupAndConvertData, hex, hsen]
  · simp [LookupAndConvertData, hex, hsen, DoRedacted, hr, hfn]
  · simp [LookupAndConvertData, hex, hsen, DoRedacted, hr]
  · simp [LookupAndConvertData, hex, hsen]
  · simp [applyConversion, hct]

/-- **C9 witness**: a concrete lookup-options map whose `convert_to` is
the sensitive marker; the function observes the redaction flag set, and
the flag is cleared on the final state. -/
theorem c9_convert_to_sensitive_witness :
    LookupAndConvertData (fun s => if s = "Sensitive" then DType.sensitive
        else DType.named s)
      (fun _ v => Value.vArr [v])
      (fun s => Except.ok (s, some (Value.vBool s.redacted)))
      ⟨[], some [("convert_to", Value.vStr "Sensitive")], none, Mode.topLevel, false,
        none⟩ =
      Except.ok (⟨[], some [("convert_to", Value.vStr "Sensitive")], none, Mode.topLevel,
        false, none⟩,
        some (Value.vArr [Value.vBool true])) := by
  have h := ((c9_convert_to_sensitive
    (fun s => if s = "Sensitive" then DType.sensitive else DType.named s)
    (fun _ v => Value.vArr [v])
    (fun s => Except.ok (s, some (Value.vBool s.redacted)))
    ⟨[], some [("convert_to", Value.vStr "Sensitive")], none, Mode.topLevel, false, none⟩
    (some DType.sensitive) none (by rfl)).1 rfl).2.1 rfl
    ⟨[], some [("convert_to", Value.vStr "Sensitive")], none, Mode.topLevel, true, none⟩
    (some (Value.vBool true)) rfl
  exact h.trans (by rfl)

/-! ### Single-flight protocol lemmas -/

/-- Helper: shared state after one step. -/
theorem stepSys_g (m : String) (s : Sys n) (i : Fin n) :
    (stepSys m s i).g = (stepCaller m s.g (s.pcs i)).1 := rfl

/-- Helper: the scheduled caller's next pc. -/
theorem stepSys_pcs_self (m : String) (s : Sys n) (i : Fin n) :
    (stepSys m s i).pcs i = (stepCaller m s.g (s.pcs i)).2 := by
  simp [stepSys]

/-- Helper: unscheduled callers are untouched. -/
theorem stepSys_pcs_ne (m : String) (s : Sys n) (i j : Fin n) (h : j ≠ i) :
    (stepSys m s i).pcs j = s.pcs j := by
  simp [stepSys, h]

/-- Helper: running a concatenated schedule. -/
theorem runFrom_append (m : String) (s : Sys n) (a b : List (Fin n)) :
    runFrom m s (a ++ b) = runFrom m (runFrom m s a) b := by
  induction a generalizing s with
  | nil => rfl
  | cons i rest ih => simp [runFrom, ih]

/-- Helper: the protocol invariant is preserved by every step. -/
theorem inv_step (m : String) (s : Sys n) (i : Fin n) (h : Inv m s) :
    Inv m (stepSys m s i) := by
  rcases h with hA | hB | hC | hD | hE
  · -- Phase A
    obtain ⟨hg, hpc⟩ := hA
    rcases hpc i with hi | hi
    · -- start steps to tryLock; stay in A
      left
      refine ⟨by rw [stepSys_g, hg, hi]; rfl, fun j => ?_⟩
      by_cases hj : j = i
      · subst hj
        rw [stepSys_pcs_self, hg, hi]
        exact Or.inr rfl
      · rw [stepSys_pcs_ne m s i j hj]
        exact hpc j
    · -- tryLock wins the LoadOrStore race; move to B with winner i
      right; left
      refine ⟨by rw [stepSys_g, hg, hi]; rfl, ⟨i, ?_, fun j hj => ?_⟩, fun j rc hdone => ?_⟩
      · rw [stepSys_pcs_self, hg, hi]; rfl
      · rw [stepSys_pcs_ne m s i j hj]
        rcases hpc j with h' | h'
        · exact Or.inl h'
        · exact Or.inr (Or.inl h')
      · by_cases hj : j = i
        · subst hj
          rw [stepSys_pcs_self, hg, hi] at hdone
          simp [stepCaller] at hdone
        · rw [stepSys_pcs_ne m s i j hj] at hdone
          rcases hpc j with h' | h' <;> rw [h'] at hdone <;> simp at hdone
  · -- Phase B
    obtain ⟨hg, ⟨w, hw, hothers⟩, hnodone⟩ := hB
    by_cases hiw : i = w
    · -- the winner parses; move to C
      subst hiw
      right; right; left
      refine ⟨by rw [stepSys_g, hg, hw]; rfl, ⟨i, ?_, fun j hj => ?_⟩, fun j rc hdone => ?_⟩
      · rw [stepSys_pcs_self, hg, hw]; rfl
      · rw [stepSys_pcs_ne m s i j hj]
        exact hothers j hj
      · by_cases hj : j = i
        · subst hj
          rw [stepSys_pcs_self, hg, hw] at hdone
          simp [stepCaller] at hdone
        · rw [stepSys_pcs_ne m s i j hj] at hdone
          exact hnodone j rc hdone
    · -- a non-winner advances towards waiting; stay in B
      right; left
      have hi := hothers i hiw
      have hgstep : (stepSys m s i).g = s.g := by
        rcases hi with hi | hi | hi <;> (rw [stepSys_g, hg, hi]; rfl)
      have hpcs : (stepSys m s i).pcs i = CPC.tryLock ∨ (stepSys m s i).pcs i = CPC.waiting := by
        rcases hi with hi | hi | hi
        · exact Or.inl (by rw [stepSys_pcs_self, hg, hi]; rfl)
        · exact Or.inr (by rw [stepSys_pcs_self, hg, hi]; rfl)
        · exact Or.inr (by rw [stepSys_pcs_self, hg, hi]; rfl)
      refine ⟨hgstep.trans hg, ⟨w, ?_, fun j hj => ?_⟩, fun j rc hdone => ?_⟩
      · rw [stepSys_pcs_ne m s i w (fun h => hiw h.symm)]
        exact hw
      · by_cases hj' : j = i
        · subst hj'
          rcases hpcs with h' | h'
          · exact Or.inr (Or.inl h')
          · exact Or.inr (Or.inr h')
        · rw [stepSys_pcs_ne m s i j hj']
          exact hothers j hj
      · by_cases hj' : j = i
        · subst hj'
          rcases hpcs with h' | h' <;> rw [h'] at hdone <;> simp at hdone
        · rw [stepSys_pcs_ne m s i j hj'] at hdone
          exact hnodone j rc hdone
  · -- Phase C
    obtain ⟨hg, ⟨w, hw, hothers⟩, hnodone⟩ := hC
    by_cases hiw : i = w
    · -- the winner publishes the config; move to D
      subst hiw
      right; right; right; left
      refine ⟨by rw [stepSys_g, hg, hw]; rfl, i, ?_, fun j hj => ?_⟩
      · rw [stepSys_pcs_self, hg, hw]; rfl
      · rw [stepSys_pcs_ne m s i j hj]
        rcases hothers j hj with h' | h' | h'
        · exact Or.inl h'
        · exact Or.inr (Or.inl h')
        · exact Or.inr (Or.inr (Or.inl h'))
    · -- a non-winner advances towards waiting; stay in C
      right; right; left
      have hi := hothers i hiw
      have hgstep : (stepSys m s i).g = s.g := by
        rcases hi with hi | hi | hi <;> (rw [stepSys_g, hg, hi]; rfl)
      have hpcs : (stepSys m s i).pcs i = CPC.tryLock ∨ (stepSys m s i).pcs i = CPC.waiting := by
        rcases hi with hi | hi | hi
        · exact Or.inl (by rw [stepSys_pcs_self, hg, hi]; rfl)
        · exact Or.inr (by rw [stepSys_pcs_self, hg, hi]; rfl)
        · exact Or.inr (by rw [stepSys_pcs_self, hg, hi]; rfl)
      refine ⟨hgstep.trans hg, ⟨w, ?_, fun j hj => ?_⟩, fun j rc hdone => ?_⟩
      · rw [stepSys_pcs_ne m s i w (fun h => hiw h.symm)]
        exact hw
      · by_cases hj' : j = i
        · subst hj'
          rcases hpcs with h' | h'
          · exact Or.inr (Or.inl h')
          · exact Or.inr (Or.inr h')
        · rw [stepSys_pcs_ne m s i j hj']
          exact hothers j hj
      · by_cases hj' : j = i
        · subst hj'
          rcases hpcs with h' | h' <;> rw [h'] at hdone <;> simp at hdone
        · rw [stepSys_pcs_ne m s i j hj'] at hdone
          exact hnodone j rc hdone
  · -- Phase D
    obtain ⟨hg, w, hw, hothers⟩ := hD
    by_cases hiw : i = w
    · -- the winner releases the lock; move to E
      subst hiw
      right; right; right; right
      refine ⟨by rw [stepSys_g, hg, hw]; rfl, fun j => ?_⟩
      by_cases hj : j = i
      · subst hj
        rw [stepSys_pcs_self, hg, hw]
        exact Or.inr (Or.inr (Or.inr rfl))
      · rw [stepSys_pcs_ne m s i j hj]
        exact hothers j hj
    · -- a non-winner advances (possibly straight to done); stay in D
      right; right; right; left
      have hi := hothers i hiw
      have hgstep : (stepSys m s i).g = s.g := by
        rcases hi with hi | hi | hi | hi <;> (rw [stepSys_g, hg, hi]; rfl)
      have hpcs : (stepSys m s i).pcs i = CPC.done (Resolve ⟨0⟩ m) ∨
          (stepSys m s i).pcs i = CPC.waiting := by
        rcases hi with hi | hi | hi | hi
        · exact Or.inl (by rw [stepSys_pcs_self, hg, hi]; rfl)
        · exact Or.inr (by rw [stepSys_pcs_self, hg, hi]; rfl)
        · exact Or.inr (by rw [stepSys_pcs_self, hg, hi]; rfl)
        · exact Or.inl (by rw [stepSys_pcs_self, hg, hi]; rfl)
      refine ⟨hgstep.trans hg, w, ?_, fun j hj => ?_⟩
      · rw [stepSys_pcs_ne m s i w (fun h => hiw h.symm)]
        exact hw
      · by_cases hj' : j = i
        · subst hj'
          rcases hpcs with h' | h'
          · exact Or.inr (Or.inr (Or.inr h'))
          · exact Or.inr (Or.inr (Or.inl h'))
        · rw [stepSys_pcs_ne m s i j hj']
          exact hothers j hj
  · -- Phase E is closed under every step
    obtain ⟨hg, hpc⟩ := hE
    right; right; right; right
    have hi := hpc i
    have hgstep : (stepSys m s i).g = s.g := by
      rcases hi with hi | hi | hi | hi <;> (rw [stepSys_g, hg, hi]; rfl)
    refine ⟨hgstep.trans hg, fun j => ?_⟩
    by_cases hj : j = i
    · subst hj
      rcases hi with hi | hi | hi | hi
      · exact Or.inr (Or.inr (Or.inr (by rw [stepSys_pcs_self, hg, hi]; rfl)))
      · exact Or.inr (Or.inr (Or.inl (by rw [stepSys_pcs_self, hg, hi]; rfl)))
      · exact Or.inr (Or.inr (Or.inr (by rw [stepSys_pcs_self, hg, hi]; rfl)))
      · exact Or.inr (Or.inr (Or.inr (by rw [stepSys_pcs_self, hg, hi]; rfl)))
    · rw [stepSys_pcs_ne m s i j hj]
      exact hpc j

/-- Helper: the invariant holds along every schedule. -/
theorem inv_runFrom (m : String) (sched : List (Fin n)) :
    ∀ s : Sys n, Inv m s → Inv m (runFrom m s sched) := by
  induction sched with
  | nil => exact fun s h => h
  | cons i rest ih => exact fun s h => ih (stepSys m s i) (inv_step m s i h)

/-- Helper: the fresh session satisfies the invariant (phase A). -/
theorem inv_init (m : String) (n : Nat) : Inv m (initSys n) :=
  Or.inl ⟨rfl, fun _ => Or.inl rfl⟩

/-- Helper: every reachable state satisfies the invariant. -/
theorem inv_run (m : String) (n : Nat) (sched : List (Fin n)) : Inv m (run m n sched) :=
  inv_runFrom m sched (initSys n) (inv_init m n)

/-- Helper: the parse routine has run at most once in every phase. -/
theorem inv_parseCount_le (m : String) (s : Sys n) (h : Inv m s) :
    s.g.parseCount ≤ 1 := by
  rcases h with ⟨hg, -⟩ | ⟨hg, -⟩ | ⟨hg, -⟩ | ⟨hg, -⟩ | ⟨hg, -⟩ <;> rw [hg] <;> simp

/-- Helper: every returned result is the resolution of the single parsed
config, which is then published in the shared cache. -/
theorem inv_done (m : String) (s : Sys n) (i : Fin n) (rc : RConfig) (h : Inv m s)
    (hd : s.pcs i = CPC.done rc) :
    rc = Resolve ⟨0⟩ m ∧ s.g.cacheConf = some ⟨0⟩ := by
  rcases h with ⟨hg, hpc⟩ | ⟨hg, ⟨w, hw, hothers⟩, hnodone⟩ | ⟨hg, ⟨w, hw, hothers⟩, hnodone⟩ |
    ⟨hg, w, hw, hothers⟩ | ⟨hg, hpc⟩
  · rcases hpc i with h' | h' <;> rw [h'] at hd <;> simp at hd
  · exact (hnodone i rc hd).elim
  · exact (hnodone i rc hd).elim
  · by_cases hiw : i = w
    · subst hiw
      rw [hw] at hd
      simp at hd
    · rcases hothers i hiw with h' | h' | h' | h'
      · rw [h'] at hd; simp at hd
      · rw [h'] at hd; simp at hd
      · rw [h'] at hd; simp at hd
      · rw [h'] at hd
        injection hd with h''
        exact ⟨h''.symm, by rw [hg]⟩
  · rcases hpc i with h' | h' | h' | h'
    · rw [h'] at hd; simp at hd
    · rw [h'] at hd; simp at hd
    · rw [h'] at hd; simp at hd
    · rw [h'] at hd
      injection hd with h''
      exact ⟨h''.symm, by rw [hg]⟩

/-- Helper: when every caller has returned, the protocol is in phase E. -/
theorem allDone_phaseE (m : String) (s : Sys n) (hn : 1 ≤ n) (h : Inv m s)
    (hd : AllDone s) : PhaseE m s := by
  rcases h with ⟨hg, hpc⟩ | ⟨hg, ⟨w, hw, -⟩, -⟩ | ⟨hg, ⟨w, hw, -⟩, -⟩ | ⟨hg, w, hw, -⟩ | hE
  · obtain ⟨rc, hrc⟩ := hd ⟨0, hn⟩
    rcases hpc ⟨0, hn⟩ with h' | h' <;> rw [h'] at hrc <;> simp at hrc
  · obtain ⟨rc, hrc⟩ := hd w
    rw [hw] at hrc
    simp at hrc
  · obtain ⟨rc, hrc⟩ := hd w
    rw [hw] at hrc
    simp at hrc
  · obtain ⟨rc, hrc⟩ := hd w
    rw [hw] at hrc
    simp at hrc
  · exact hE

/-- Helper: in phase E the parse count is exactly one. -/
theorem phaseE_parseCount (m : String) (s : Sys n) (hE : PhaseE m s) :
    s.g.parseCount = 1 := by
  rw [hE.1]

/-- Helper: phase E is closed under every step and never changes the
shared state. -/
theorem phaseE_step (m : String) (s : Sys n) (i : Fin n) (hE : PhaseE m s) :
    PhaseE m (stepSys m s i) ∧ (stepSys m s i).g = s.g := by
  obtain ⟨hg, hpc⟩ := hE
  have hi := hpc i
  have hgstep : (stepSys m s i).g = s.g := by
    rcases hi with hi | hi | hi | hi <;> (rw [stepSys_g, hg, hi]; rfl)
  refine ⟨⟨hgstep.trans hg, fun j => ?_⟩, hgstep⟩
  by_cases hj : j = i
  · subst hj
    rcases hi with hi | hi | hi | hi
    · exact Or.inr (Or.inr (Or.inr (by rw [stepSys_pcs_self, hg, hi]; rfl)))
    · exact Or.inr (Or.inr (Or.inl (by rw [stepSys_pcs_self, hg, hi]; rfl)))
    · exact Or.inr (Or.inr (Or.inr (by rw [stepSys_pcs_self, hg, hi]; rfl)))
    · exact Or.inr (Or.inr (Or.inr (by rw [stepSys_pcs_self, hg, hi]; rfl)))
  · rw [stepSys_pcs_ne m s i j hj]
    exact hpc j

/-- Helper: a finished caller stays finished with the same result. -/
theorem done_stable (m : String) (s : Sys n) (i j : Fin n) (rc : RConfig)
    (hd : s.pcs j = CPC.done rc) : (stepSys m s i).pcs j = CPC.done rc := by
  by_cases hj : j = i
  · subst hj
    rw [stepSys_pcs_self, hd]
    rfl
  · rw [stepSys_pcs_ne m s i j hj]
    exact hd

/-- Helper: phase E survives any whole schedule. -/
theorem runFrom_phaseE (m : String) (ext : List (Fin n)) :
    ∀ s : Sys n, PhaseE m s → PhaseE m (runFrom m s ext) := by
  induction ext with
  | nil => exact fun s h => h
  | cons i rest ih => exact fun s h => ih (stepSys m s i) (phaseE_step m s i h).1

/-- Helper: a finished caller stays finished along any schedule. -/
theorem runFrom_done_stable (m : String) (ext : List (Fin n)) :
    ∀ (s : Sys n) (j : Fin n) (rc : RConfig), s.pcs j = CPC.done rc →
      (runFrom m s ext).pcs j = CPC.done rc := by
  induction ext with
  | nil => exact fun s j rc h => h
  | cons i rest ih => exact fun s j rc h => ih (stepSys m s i) j rc (done_stable m s i j rc h)

/-- Helper: in phase E, scheduling a caller twice finishes it with the
resolution of the single parsed config. -/
theorem phaseE_two (m : String) (s : Sys n) (i : Fin n) (hE : PhaseE m s) :
    (runFrom m s [i, i]).pcs i = CPC.done (Resolve ⟨0⟩ m) := by
  obtain ⟨hg, hpc⟩ := hE
  have hrun : runFrom m s [i, i] = stepSys m (stepSys m s i) i := rfl
  have hg1 : (stepSys m s i).g = s.g := by
    rcases hpc i with hi | hi | hi | hi <;> (rw [stepSys_g, hg, hi]; rfl)
  rw [hrun]
  rcases hpc i with hi | hi | hi | hi
  · have hp1 : (stepSys m s i).pcs i = CPC.done (Resolve ⟨0⟩ m) := by
      rw [stepSys_pcs_self, hg, hi]; rfl
    rw [stepSys_pcs_self, hg1, hg, hp1]
    rfl
  · have hp1 : (stepSys m s i).pcs i = CPC.waiting := by
      rw [stepSys_pcs_self, hg, hi]; rfl
    rw [stepSys_pcs_self, hg1, hg, hp1]
    rfl
  · have hp1 : (stepSys m s i).pcs i = CPC.done (Resolve ⟨0⟩ m) := by
      rw [stepSys_pcs_self, hg, hi]; rfl
    rw [stepSys_pcs_self, hg1, hg, hp1]
    rfl
  · have hp1 : (stepSys m s i).pcs i = CPC.done (Resolve ⟨0⟩ m) := by
      rw [stepSys_pcs_self, hg, hi]; rfl
    rw [stepSys_pcs_self, hg1, hg, hp1]
    rfl

/-- Helper: from phase E, a schedule finishing every caller of a given
list exists. -/
theorem finish_list (m : String) (l : List (Fin n)) :
    ∀ s : Sys n, PhaseE m s →
      ∃ ext : List (Fin n),
        PhaseE m (runFrom m s ext) ∧
        ∀ i, i ∈ l → (runFrom m s ext).pcs i = CPC.done (Resolve ⟨0⟩ m) := by
  induction l with
  | nil => exact fun s hE => ⟨[], hE, by simp⟩
  | cons i rest ih =>
      intro s hE
      have hE₁ : PhaseE m (runFrom m s [i, i]) :=
        runFrom_phaseE m [i, i] s hE
      have hdi : (runFrom m s [i, i]).pcs i = CPC.done (Resolve ⟨0⟩ m) :=
        phaseE_two m s i hE
      obtain ⟨ext, hEe, hdone⟩ := ih (runFrom m s [i, i]) hE₁
      refine ⟨[i, i] ++ ext, ?_, ?_⟩
      · rw [runFrom_append]
        exact hEe
      · intro k hk
        rw [runFrom_append]
        rcases List.mem_cons.mp hk with hk | hk
        · rw [hk]
          exact runFrom_done_stable m ext (runFrom m s [i, i]) i (Resolve ⟨0⟩ m) hdi
        · exact hdone k hk

/-- Helper: one step of the unlocking winner reaches phase E. -/
theorem phaseD_finish (m : String) (s : Sys n) (w : Fin n)
    (hg : s.g = ⟨some ⟨0⟩, true, true, 1⟩) (hw : s.pcs w = CPC.unlocking ⟨0⟩)
    (hothers : ∀ j, j ≠ w → s.pcs j = CPC.start ∨ s.pcs j = CPC.tryLock ∨
      s.pcs j = CPC.waiting ∨ s.pcs j = CPC.done (Resolve ⟨0⟩ m)) :
    PhaseE m (runFrom m s [w]) := by
  show PhaseE m (stepSys m s w)
  refine ⟨by rw [stepSys_g, hg, hw]; rfl, fun j => ?_⟩
  by_cases hj : j = w
  · rw [hj, stepSys_pcs_self, hg, hw]
    exact Or.inr (Or.inr (Or.inr rfl))
  · rw [stepSys_pcs_ne m s w j hj]
    exact hothers j hj

/-- Helper: two steps of the storing winner reach phase E. -/
theorem phaseC_finish (m : String) (s : Sys n) (w : Fin n)
    (hg : s.g = ⟨none, true, true, 1⟩) (hw : s.pcs w = CPC.storing ⟨0⟩)
    (hothers : ∀ j, j ≠ w → s.pcs j = CPC.start ∨ s.pcs j = CPC.tryLock ∨
      s.pcs j = CPC.waiting) :
    PhaseE m (runFrom m s [w, w]) := by
  refine phaseD_finish m (stepSys m s w) w ?_ ?_ ?_
  · rw [stepSys_g, hg, hw]; rfl
  · rw [stepSys_pcs_self, hg, hw]; rfl
  · intro j hj
    rw [stepSys_pcs_ne m s w j hj]
    rcases hothers j hj with h' | h' | h'
    · exact Or.inl h'
    · exact Or.inr (Or.inl h')
    · exact Or.inr (Or.inr (Or.inl h'))

/-- Helper: three steps of the parsing winner reach phase E. -/
theorem phaseB_finish (m : String) (s : Sys n) (w : Fin n)
    (hg : s.g = ⟨none, true, true, 0⟩) (hw : s.pcs w = CPC.parsing)
    (hothers : ∀ j, j ≠ w → s.pcs j = CPC.start ∨ s.pcs j = CPC.tryLock ∨
      s.pcs j = CPC.waiting) :
    PhaseE m (runFrom m s [w, w, w]) := by
  refine phaseC_finish m (stepSys m s w) w ?_ ?_ ?_
  · rw [stepSys_g, hg, hw]; rfl
  · rw [stepSys_pcs_self, hg, hw]; rfl
  · intro j hj
    rw [stepSys_pcs_ne m s w j hj]
    exact hothers j hj

/-- Helper: four steps of a caller at `tryLock` on a fresh shared state
reach phase E. -/
theorem phaseA_tryLock_finish (m : String) (s : Sys n) (w : Fin n)
    (hg : s.g = ⟨none, false, false, 0⟩) (hw : s.pcs w = CPC.tryLock)
    (hothers : ∀ j, s.pcs j = CPC.start ∨ s.pcs j = CPC.tryLock) :
    PhaseE m (runFrom m s [w, w, w, w]) := by
  refine phaseB_finish m (stepSys m s w) w ?_ ?_ ?_
  · rw [stepSys_g, hg, hw]; rfl
  · rw [stepSys_pcs_self, hg, hw]; rfl
  · intro j hj
    rw [stepSys_pcs_ne m s w j hj]
    rcases hothers j with h' | h'
    · exact Or.inl h'
    · exact Or.inr (Or.inl h')

/-- Helper: five steps of a caller at `start` on a fresh system reach
phase E. -/
theorem phaseA_start_finish (m : String) (s : Sys n) (w : Fin n)
    (hg : s.g = ⟨none, false, false, 0⟩) (hw : s.pcs w = CPC.start)
    (hothers : ∀ j, s.pcs j = CPC.start ∨ s.pcs j = CPC.tryLock) :
    PhaseE m (runFrom m s [w, w, w, w, w]) := by
  refine phaseA_tryLock_finish m (stepSys m s w) w ?_ ?_ ?_
  · rw [stepSys_g, hg, hw]; rfl
  · rw [stepSys_pcs_self, hg, hw]; rfl
  · intro j
    by_cases hj : j = w
    · rw [hj, stepSys_pcs_self, hg, hw]
      exact Or.inr rfl
    · rw [stepSys_pcs_ne m s w j hj]
      exact hothers j

/-- Helper: from every invariant state some schedule reaches phase E. -/
theorem inv_reach_phaseE (m : String) (s : Sys n) (hn : 1 ≤ n) (h : Inv m s) :
    ∃ ext, PhaseE m (runFrom m s ext) := by
  rcases h with ⟨hg, hpc⟩ | ⟨hg, ⟨w, hw, hothers⟩, -⟩ | ⟨hg, ⟨w, hw, hothers⟩, -⟩ |
    ⟨hg, w, hw, hothers⟩ | hE
  · rcases hpc ⟨0, hn⟩ with hi | hi
    · exact ⟨[⟨0, hn⟩, ⟨0, hn⟩, ⟨0, hn⟩, ⟨0, hn⟩, ⟨0, hn⟩],
        phaseA_start_finish m s ⟨0, hn⟩ hg hi hpc⟩
    · exact ⟨[⟨0, hn⟩, ⟨0, hn⟩, ⟨0, hn⟩, ⟨0, hn⟩],
        phaseA_tryLock_finish m s ⟨0, hn⟩ hg hi hpc⟩
  · exact ⟨[w, w, w], phaseB_finish m s w hg hw hothers⟩
  · exact ⟨[w, w], phaseC_finish m s w hg hw hothers⟩
  · exact ⟨[w], phaseD_finish m s w hg hw hothers⟩
  · exact ⟨[], hE⟩

/-- **C1** single-flight config construction: along every schedule of
any number N ≥ 1 of concurrent callers invoking `Config` for the same
path on a fresh session, the parse/construct routine `config.New` has
run at most once; every caller that has returned holds the resolution of
the single parsed config (parse index 0), which is published complete in
the shared cache; when all callers have returned the routine has run
exactly once; and every schedule extends to one in which all callers
return that same resolved config with exactly one parse. -/
theorem c1_single_flight_config (m : String) (n : Nat) (hn : 1 ≤ n)
    (sched : List (Fin n)) :
    (run m n sched).g.parseCount ≤ 1 ∧
    (∀ i rc, (run m n sched).pcs i = CPC.done rc →
      rc = Resolve ⟨0⟩ m ∧ (run m n sched).g.cacheConf = some ⟨0⟩) ∧
    (AllDone (run m n sched) → (run m n sched).g.parseCount = 1) ∧
    ∃ ext, AllDone (run m n (sched ++ ext)) ∧
      (run m n (sched ++ ext)).g.parseCount = 1 ∧
      ∀ i, (run m n (sched ++ ext)).pcs i = CPC.done (Resolve ⟨0⟩ m) := by
  have hInv := inv_run m n sched
  refine ⟨inv_parseCount_le m _ hInv, fun i rc h => inv_done m _ i rc hInv h,
    fun hAll => phaseE_parseCount m _ (allDone_phaseE m _ hn hInv hAll), ?_⟩
  obtain ⟨ext₁, hE₁⟩ := inv_reach_phaseE m _ hn hInv
  obtain ⟨ext₂, hE₂, hdone⟩ := finish_list m (List.finRange n) _ hE₁
  have hsplit : run m n (sched ++ (ext₁ ++ ext₂)) =
      runFrom m (runFrom m (run m n sched) ext₁) ext₂ := by
    show runFrom m (initSys n) (sched ++ (ext₁ ++ ext₂)) = _
    rw [runFrom_append, runFrom_append]
    rfl
  refine ⟨ext₁ ++ ext₂, fun i => ⟨Resolve ⟨0⟩ m, ?_⟩, ?_, fun i => ?_⟩
  · rw [hsplit]
    exact hdone i (List.mem_finRange i)
  · rw [hsplit]
    exact phaseE_parseCount m _ hE₂
  · rw [hsplit]
    exact hdone i (List.mem_finRange i)

/-- **C1 witness**: two concurrent callers, an interleaved schedule. -/
theorem c1_single_flight_config_witness :
    1 ≤ 2 ∧
    ((run "common" 2 [0, 1]).g.parseCount ≤ 1 ∧
     (∀ i rc, (run "common" 2 [0, 1]).pcs i = CPC.done rc →
       rc = Resolve ⟨0⟩ "common" ∧ (run "common" 2 [0, 1]).g.cacheConf = some ⟨0⟩) ∧
     (AllDone (run "common" 2 [0, 1]) → (run "common" 2 [0, 1]).g.parseCount = 1) ∧
     ∃ ext, AllDone (run "common" 2 ([0, 1] ++ ext)) ∧
       (run "common" 2 ([0, 1] ++ ext)).g.parseCount = 1 ∧
       ∀ i, (run "common" 2 ([0, 1] ++ ext)).pcs i =
         CPC.done (Resolve ⟨0⟩ "common")) :=
  ⟨by decide, c1_single_flight_config "common" 2 (by decide) [0, 1]⟩

end Hiera
